import Mathlib

/-!
Shallow embedding of the quiz application in `src/aitest.py` (question-bank
loading, attempt persistence, question selection and grading), together with
proofs about the claims of its specification.

Modelling conventions:
* JSON values that can occur in the question file are modelled by `JValue`
  (strings, integers and lists; JSON null/bool/float are not needed by any
  claim and are omitted).
* A raw JSON record is a `RawRecord` of optional fields; a field being `none`
  models the key being absent from the Python dict.
* Python exceptions (`ValueError` from `int()`, `TypeError` from ordering a
  non-integer, `AttributeError` from `.strip()` on a non-string) are modelled
  by `Except.error` with a message naming the exception.
* Python `str.strip()` is modelled by `pyStrip` (both drop surrounding
  whitespace; the exact whitespace sets differ only in exotic characters).
* Python `int(s)` on strings is modelled by `parseIntStr` (surrounding
  whitespace, an optional sign, then decimal digits; numeric-literal
  underscores are not modelled — no claim involves them).
* The SQLite table `attempts` (qid TEXT PRIMARY KEY, is_correct INTEGER,
  last_answer TEXT NULL, correct_answer TEXT NULL) is modelled as an
  association list `Db`; the PRIMARY KEY uniqueness is the `Nodup` invariant
  on its keys, which the upsert is proved to preserve.
* `random.sample(pool, n)` is nondeterministic, so `pick_questions` is
  modelled by the relation `PickRel`: the result is some permutation of an
  `n`-element sub-selection of the pool (`List.Subperm`), after the clamping
  and empty-pool checks that the code performs.
-/

/-- JSON-like dynamic values appearing in the question file. -/
inductive JValue where
  | jstr (s : String)
  | jint (n : ℤ)
  | jlist (xs : List JValue)
deriving Repr

/-- A raw record of the question file: the Python dict read by
`load_questions`. A `none` field models an absent key. -/
structure RawRecord where
  id : Option JValue
  question : Option JValue
  options : Option JValue
  answer : Option JValue
  explanation : Option JValue

/-- A normalized question, as appended to `normalized` by `load_questions`. -/
structure Question where
  id : String
  question : String
  choices : List String
  answer : String
  explanation : String
deriving DecidableEq, Repr

/-- Embedding of Python `str.strip()`: drop leading and trailing whitespace
(defined on the character list so that concrete instances evaluate). -/
def pyStrip (s : String) : String :=
  ⟨((s.data.dropWhile Char.isWhitespace).reverse.dropWhile Char.isWhitespace).reverse⟩

/-- Decimal digit to character, for formatting ids. -/
def digitChar (d : ℕ) : Char :=
  match d with
  | 0 => '0' | 1 => '1' | 2 => '2' | 3 => '3' | 4 => '4'
  | 5 => '5' | 6 => '6' | 7 => '7' | 8 => '8' | 9 => '9'
  | _ => '*'

/-- Character back to decimal digit. -/
def charDigit (c : Char) : ℕ :=
  match c with
  | '0' => 0 | '1' => 1 | '2' => 2 | '3' => 3 | '4' => 4
  | '5' => 5 | '6' => 6 | '7' => 7 | '8' => 8 | '9' => 9
  | _ => 10

/-- Little-endian base-10 digits, computed with explicit fuel so that the
kernel can evaluate concrete instances (proved equal to `Nat.digits 10`). -/
def natDigitsFuel : ℕ → ℕ → List ℕ
  | 0, _ => []
  | fuel + 1, n => if n = 0 then [] else (n % 10) :: natDigitsFuel fuel (n / 10)

/-- Little-endian base-10 digits of a natural number. -/
def natDigits (n : ℕ) : List ℕ := natDigitsFuel n n

/-- Big-endian decimal digit characters of a natural number, as Python
`str(n)` produces for `n ≥ 0`. -/
def natStr (n : ℕ) : List Char :=
  if n = 0 then ['0'] else ((natDigits n).map digitChar).reverse

/-- Left-pad a character list with zeros to width `w`, as the `0` fill of a
Python format spec does after the sign. -/
def padZeros (l : List Char) (w : ℕ) : List Char :=
  List.replicate (w - l.length) '0' ++ l

/-- Embedding of `f"Q{raw_id:04d}"`: `Q` followed by the integer zero-padded
to width 4 (the sign, for negative ids, counts toward the width). -/
def formatId (n : ℤ) : String :=
  if n < 0 then ⟨'Q' :: '-' :: padZeros (natStr n.natAbs) 3⟩
  else ⟨'Q' :: padZeros (natStr n.natAbs) 4⟩

/-- Value of a big-endian digit-character list (leading zeros allowed). -/
def digitsVal (l : List Char) : ℕ :=
  l.foldl (fun a c => 10 * a + charDigit c) 0

/-- Embedding of Python `int(s)` for strings: strip surrounding whitespace,
accept an optional sign followed by one or more decimal digits. -/
def parseIntStr (s : String) : Option ℤ :=
  match (pyStrip s).toList with
  | '-' :: rest =>
      if rest ≠ [] ∧ rest.all Char.isDigit then some (-(digitsVal rest : ℤ)) else none
  | '+' :: rest =>
      if rest ≠ [] ∧ rest.all Char.isDigit then some (digitsVal rest : ℤ) else none
  | rest =>
      if rest ≠ [] ∧ rest.all Char.isDigit then some (digitsVal rest : ℤ) else none

/-- Embedding of Python `int(v)` on a JSON value: integers pass through,
strings are parsed, anything else raises `ValueError` (`none`). -/
def pyIntOf : JValue → Option ℤ
  | .jint n => some n
  | .jstr s => parseIntStr s
  | .jlist _ => none

mutual
/-- Embedding of Python `repr` on a JSON value (used for elements when a list
is converted by `str`); string escaping inside quotes is not modelled. -/
def pyRepr : JValue → String
  | .jstr s => "'" ++ s ++ "'"
  | .jint n => toString n
  | .jlist xs => "[" ++ pyReprList xs ++ "]"

/-- Comma-separated `repr`s of the elements of a list. -/
def pyReprList : List JValue → String
  | [] => ""
  | [x] => pyRepr x
  | x :: y :: xs => pyRepr x ++ ", " ++ pyReprList (y :: xs)
end

/-- Embedding of Python `str(v)` on a JSON value. -/
def pyStr : JValue → String
  | .jstr s => s
  | .jint n => toString n
  | .jlist xs => "[" ++ pyReprList xs ++ "]"

/-- One pass of the `for i, q in enumerate(data)` loop body of
`load_questions`: given the current `seen_ids`, either raise (`.error`), or
return the updated `seen_ids` and the normalized question appended to
`normalized` (`none` when the record is skipped). Records missing a required
field are skipped (with a warning, not modelled); a duplicate integer id is
skipped; a non-list or short `options` is skipped; an out-of-range integer
`answer` is skipped — the latter two only after the id was added to
`seen_ids`, exactly as in the source. An id on which `int()` fails raises
`ValueError`; a non-integer `answer` raises `TypeError` in the chained
comparison; a non-string `question` or `explanation` raises `AttributeError`
on `.strip()`. -/
def loadStep (seen : List ℤ) (q : RawRecord) : Except String (List ℤ × Option Question) :=
  match q.id, q.question, q.options, q.answer with
  | some idv, some qv, some ov, some av =>
    match pyIntOf idv with
    | none => .error "ValueError: invalid literal for int"
    | some rawId =>
      if rawId ∈ seen then .ok (seen, none)
      else
        match ov with
        | .jlist opts =>
          if opts.length < 2 then .ok (rawId :: seen, none)
          else
            match av with
            | .jint ansIdx =>
              if 0 ≤ ansIdx ∧ ansIdx < (opts.length : ℤ) then
                match qv with
                | .jstr qs =>
                  match q.explanation with
                  | none =>
                      .ok (rawId :: seen,
                        some { id := formatId rawId, question := pyStrip qs,
                               choices := opts.map (fun x => pyStrip (pyStr x)),
                               answer := pyStrip (pyStr (opts.getD ansIdx.toNat (.jstr ""))),
                               explanation := "" })
                  | some (.jstr es) =>
                      .ok (rawId :: seen,
                        some { id := formatId rawId, question := pyStrip qs,
                               choices := opts.map (fun x => pyStrip (pyStr x)),
                               answer := pyStrip (pyStr (opts.getD ansIdx.toNat (.jstr ""))),
                               explanation := pyStrip es })
                  | some _ => .error "AttributeError: strip on explanation"
                | _ => .error "AttributeError: strip on question"
              else .ok (rawId :: seen, none)
            | _ => .error "TypeError: ordering int and non-int"
        | _ => .ok (rawId :: seen, none)
  | _, _, _, _ => .ok (seen, none)

/-- The `for` loop of `load_questions` over the remaining records, threading
`seen_ids` (`seen`) and `normalized` (`acc`) through `loadStep`; the first
raised exception aborts the whole load. -/
def loadGo (seen : List ℤ) (acc : List Question) : List RawRecord → Except String (List Question)
  | [] => .ok acc
  | q :: rest =>
    match loadStep seen q with
    | .error e => .error e
    | .ok (seen', none) => loadGo seen' acc rest
    | .ok (seen', some nq) => loadGo seen' (acc ++ [nq]) rest

/-- Embedding of `load_questions` on the decoded JSON document. The
surrounding I/O (missing file, JSON parse failure) is outside the model;
`data` is the decoded list. An empty list yields an empty bank (the code
shows an error message and returns `[]`). -/
def load_questions (data : List RawRecord) : Except String (List Question) :=
  if data.isEmpty then .ok [] else loadGo [] [] data

/-- A row of the SQLite `attempts` table (minus the key): `is_correct INTEGER
NOT NULL`, `last_answer TEXT` (nullable), `correct_answer TEXT` (nullable). -/
structure Row where
  is_correct : ℤ
  last_answer : Option String
  correct_answer : Option String
deriving DecidableEq, Repr

/-- The `attempts` table: rows keyed by `qid`. The PRIMARY KEY constraint is
the `Nodup` predicate on `(db.map Prod.fst)`, carried as a hypothesis. -/
abbrev Db := List (String × Row)

/-- One `INSERT ... ON CONFLICT(qid) DO UPDATE` step: overwrite the row in
place when the key exists, append otherwise. -/
def upsertRow (db : Db) (qid : String) (row : Row) : Db :=
  if (List.map Prod.fst db).contains qid then
    List.map (fun e => if e.1 = qid then (qid, row) else e) db
  else db ++ [(qid, row)]

/-- One result dict built by the submit handler:
`{"qid", "is_correct", "user_ans", "correct_ans"}`. -/
structure ResultRec where
  qid : String
  is_correct : Bool
  user_ans : Option String
  correct_ans : String
deriving DecidableEq, Repr

/-- Embedding of `save_attempts_batch`: execute the upsert for each result in
order, converting `is_correct` with Python `int(bool)`. -/
def save_attempts_batch (db : Db) (results : List ResultRec) : Db :=
  results.foldl
    (fun d r =>
      upsertRow d r.qid
        { is_correct := if r.is_correct then 1 else 0,
          last_answer := r.user_ans,
          correct_answer := some r.correct_ans }) db

/-- Embedding of `load_attempts`: the dict `{qid: {is_correct, last_answer,
correct_answer}}` built from every row of the table (with the PRIMARY KEY
invariant the comprehension loses no row). -/
def load_attempts (db : Db) : List (String × Row) :=
  List.map (fun r => (r.1, r.2)) db

/-- Embedding of `reset_progress`: `DELETE FROM attempts`. -/
def reset_progress (_db : Db) : Db := []

/-- The `seen_ids` set of `pick_questions`: every key of the attempts dict. -/
def seenIds (attempts : List (String × Row)) : List String :=
  attempts.map Prod.fst

/-- The `wrong_ids` set of `pick_questions`: keys whose `is_correct` is 0. -/
def wrongIds (attempts : List (String × Row)) : List String :=
  (attempts.filter (fun e => e.2.is_correct = 0)).map Prod.fst

/-- The eligible pool of `pick_questions`: wrong-only first, else unseen when
`avoid_seen`, else the whole bank. -/
def pickPool (all_questions : List Question) (attempts : List (String × Row))
    (avoid_seen use_wrong_only : Bool) : List Question :=
  if use_wrong_only then
    all_questions.filter (fun q => q.id ∈ wrongIds attempts)
  else if avoid_seen then
    all_questions.filter (fun q => q.id ∉ seenIds attempts)
  else all_questions

/-- Relational embedding of `pick_questions`: `random.sample(pool, n)` is
nondeterministic, so `res` is any permutation of an `n`-element sub-selection
of the pool (`<+~`), with `n` first clamped by `min` to the pool size, and an
empty pool short-circuiting to `[]`. -/
def PickRel (all_questions : List Question) (attempts : List (String × Row))
    (n : ℕ) (avoid_seen use_wrong_only : Bool) (res : List Question) : Prop :=
  let pool := pickPool all_questions attempts avoid_seen use_wrong_only
  if pool.isEmpty then res = []
  else res.length = min n pool.length ∧ List.Subperm res pool

/-- One entry of `wrong_list`: the question dict together with the user's
answer (absent when the radio was never selected). -/
structure WrongItem where
  q : Question
  user_ans : Option String
deriving DecidableEq, Repr

/-- Accumulated state of the submit loop: `results_to_save`, `score`,
`wrong_list`. -/
structure GradeOut where
  results : List ResultRec
  score : ℕ
  wrong : List WrongItem
deriving DecidableEq, Repr

/-- Body of the grading loop of the submit handler: read the session answer
for the question, compare to `q["answer"]` with Python `==` (an absent
answer, `None`, never equals a string), bump the score or extend the wrong
list, and record the row to save. -/
def gradeStep (answers : String → Option String) (st : GradeOut) (q : Question) : GradeOut :=
  let user := answers q.id
  let isc : Bool := user = some q.answer
  { results := st.results ++ [{ qid := q.id, is_correct := isc,
                                user_ans := user, correct_ans := q.answer }],
    score := st.score + (if isc then 1 else 0),
    wrong := if isc then st.wrong else st.wrong ++ [{ q := q, user_ans := user }] }

/-- Embedding of the grading loop of the submit handler, starting from empty
`results_to_save`, zero `score` and empty `wrong_list`. -/
def gradeRound (picked : List Question) (answers : String → Option String) : GradeOut :=
  picked.foldl (gradeStep answers) { results := [], score := 0, wrong := [] }

/-- Embedding of `final_score = int(score / len(picked_qs) * 100)`: the float
quotient is modelled exactly in `ℚ`, and `int()` on a nonnegative value is
the floor. -/
def final_score (picked : List Question) (answers : String → Option String) : ℤ :=
  ⌊((gradeRound picked answers).score : ℚ) / (picked.length : ℚ) * 100⌋

/-- Modelled from the spec (for comparison with the code): a percentage
"rounded to one decimal place". Python `round` is banker's rounding and
`Int.round` rounds half away from even ties differently, but no comparison
in this development sits at a tie. -/
def specRound1 (x : ℚ) : ℚ := (round (x * 10) : ℤ) / 10

theorem natDigitsFuel_eq (fuel n : ℕ) (h : n ≤ fuel) :
    natDigitsFuel fuel n = Nat.digits 10 n := by
  induction fuel generalizing n with
  | zero =>
      interval_cases n
      simp [natDigitsFuel]
  | succ fuel ih =>
      by_cases h0 : n = 0
      · subst h0; simp [natDigitsFuel]
      · rw [natDigitsFuel, if_neg h0,
          Nat.digits_def' (by norm_num) (Nat.pos_of_ne_zero h0), ih _ (by omega)]

theorem natDigits_eq (n : ℕ) : natDigits n = Nat.digits 10 n :=
  natDigitsFuel_eq n n le_rfl

theorem charDigit_digitChar {d : ℕ} (h : d < 10) : charDigit (digitChar d) = d := by
  interval_cases d <;> rfl

theorem digitsVal_append_single (l : List Char) (c : Char) :
    digitsVal (l ++ [c]) = 10 * digitsVal l + charDigit c := by
  simp [digitsVal, List.foldl_append]

theorem digitsVal_replicate_zero_append (k : ℕ) (l : List Char) :
    digitsVal (List.replicate k '0' ++ l) = digitsVal l := by
  induction k with
  | zero => simp
  | succ k ih =>
      have h0 : (10 * 0 + charDigit '0') = 0 := rfl
      simpa [digitsVal, List.replicate_succ, h0] using ih

theorem digitsVal_reverse_map (l : List ℕ) (h : ∀ d ∈ l, d < 10) :
    digitsVal ((l.map digitChar).reverse) = Nat.ofDigits 10 l := by
  induction l with
  | nil => rfl
  | cons x t ih =>
      have hx : charDigit (digitChar x) = x := charDigit_digitChar (h x (by simp))
      have ht := ih (fun d hd => h d (by simp [hd]))
      calc digitsVal (((x :: t).map digitChar).reverse)
          = digitsVal ((t.map digitChar).reverse ++ [digitChar x]) := by simp
        _ = 10 * digitsVal ((t.map digitChar).reverse) + charDigit (digitChar x) :=
            digitsVal_append_single _ _
        _ = x + 10 * Nat.ofDigits 10 t := by rw [ht, hx]; ring
        _ = Nat.ofDigits 10 (x :: t) := by
            rw [Nat.ofDigits_cons]

theorem digitsVal_natStr (n : ℕ) : digitsVal (natStr n) = n := by
  by_cases h : n = 0
  · subst h; rfl
  · rw [natStr, if_neg h, natDigits_eq,
      digitsVal_reverse_map _ (fun d hd => Nat.digits_lt_base (by norm_num) hd),
      Nat.ofDigits_digits]

theorem digitsVal_padZeros (l : List Char) (w : ℕ) :
    digitsVal (padZeros l w) = digitsVal l :=
  digitsVal_replicate_zero_append _ _

theorem charDigit_lt_ten_of_mem_pad {c : Char} {n w : ℕ}
    (h : c ∈ padZeros (natStr n) w) : charDigit c < 10 := by
  rcases List.mem_append.mp h with h | h
  · rw [List.eq_of_mem_replicate h]; decide
  · by_cases hn : n = 0
    · subst hn
      rw [show natStr 0 = ['0'] from rfl, List.mem_singleton] at h
      rw [h]; decide
    · rw [natStr, if_neg hn, natDigits_eq] at h
      rcases List.mem_map.mp (List.mem_reverse.mp h) with ⟨d, hd, rfl⟩
      rw [charDigit_digitChar (Nat.digits_lt_base (by norm_num) hd)]
      exact Nat.digits_lt_base (by norm_num) hd

theorem natStr_ne_nil (n : ℕ) : natStr n ≠ [] := by
  by_cases h : n = 0
  · subst h; simp [natStr]
  · rw [natStr, if_neg h, natDigits_eq]
    simp [Nat.digits_eq_nil_iff_eq_zero, h]

theorem padZeros_ne_nil {l : List Char} (h : l ≠ []) (w : ℕ) : padZeros l w ≠ [] := by
  simp [padZeros, h]

theorem formatId_inj {m n : ℤ} (h : formatId m = formatId n) : m = n := by
  unfold formatId at h
  by_cases hm : m < 0 <;> by_cases hn : n < 0
  · rw [if_pos hm, if_pos hn] at h
    have hdata : 'Q' :: '-' :: padZeros (natStr m.natAbs) 3
        = 'Q' :: '-' :: padZeros (natStr n.natAbs) 3 := congrArg String.data h
    have h3 : padZeros (natStr m.natAbs) 3 = padZeros (natStr n.natAbs) 3 := by
      injection hdata with _ h'; injection h'
    have := congrArg digitsVal h3
    rw [digitsVal_padZeros, digitsVal_padZeros, digitsVal_natStr, digitsVal_natStr] at this
    omega
  · exfalso
    rw [if_pos hm, if_neg hn] at h
    have hdata : 'Q' :: '-' :: padZeros (natStr m.natAbs) 3
        = 'Q' :: padZeros (natStr n.natAbs) 4 := congrArg String.data h
    have h' : padZeros (natStr n.natAbs) 4 = '-' :: padZeros (natStr m.natAbs) 3 := by
      injection hdata with _ h'; exact h'.symm
    have hmem : '-' ∈ padZeros (natStr n.natAbs) 4 := by rw [h']; exact List.mem_cons_self _ _
    exact absurd (charDigit_lt_ten_of_mem_pad hmem) (by decide)
  · exfalso
    rw [if_neg hm, if_pos hn] at h
    have hdata : 'Q' :: padZeros (natStr m.natAbs) 4
        = 'Q' :: '-' :: padZeros (natStr n.natAbs) 3 := congrArg String.data h
    have h' : padZeros (natStr m.natAbs) 4 = '-' :: padZeros (natStr n.natAbs) 3 := by
      injection hdata
    have hmem : '-' ∈ padZeros (natStr m.natAbs) 4 := by rw [h']; exact List.mem_cons_self _ _
    exact absurd (charDigit_lt_ten_of_mem_pad hmem) (by decide)
  · rw [if_neg hm, if_neg hn] at h
    have hdata : 'Q' :: padZeros (natStr m.natAbs) 4
        = 'Q' :: padZeros (natStr n.natAbs) 4 := congrArg String.data h
    have h4 : padZeros (natStr m.natAbs) 4 = padZeros (natStr n.natAbs) 4 := by
      injection hdata
    have := congrArg digitsVal h4
    rw [digitsVal_padZeros, digitsVal_padZeros, digitsVal_natStr, digitsVal_natStr] at this
    omega

theorem loadStep_ok {seen : List ℤ} {q : RawRecord} {seen' : List ℤ} {res : Option Question}
    (h : loadStep seen q = .ok (seen', res)) :
    (seen' = seen ∧ res = none) ∨
      (∃ i, i ∉ seen ∧ seen' = i :: seen ∧ ∀ nq, res = some nq → nq.id = formatId i) := by
  unfold loadStep at h
  repeat' split at h
  all_goals cases h
  all_goals first
    | exact Or.inl ⟨rfl, rfl⟩
    | exact Or.inr ⟨_, by assumption, rfl, fun nq hnq => by cases hnq; rfl⟩
    | exact Or.inr ⟨_, by assumption, rfl, fun nq hnq => by cases hnq⟩

theorem loadGo_ok_nodup (data : List RawRecord) :
    ∀ (seen : List ℤ) (acc bank : List Question),
    (acc.map Question.id).Nodup →
    (∀ q ∈ acc, ∃ i ∈ seen, q.id = formatId i) →
    loadGo seen acc data = .ok bank → (bank.map Question.id).Nodup := by
  induction data with
  | nil =>
      intro seen acc bank h1 _ h
      cases h
      exact h1
  | cons q rest ih =>
      intro seen acc bank h1 h2 h
      rw [loadGo] at h
      cases hstep : loadStep seen q with
      | error e => rw [hstep] at h; cases h
      | ok pr =>
          obtain ⟨seen', res⟩ := pr
          rw [hstep] at h
          rcases loadStep_ok hstep with ⟨rfl, rfl⟩ | ⟨i, hiseen, rfl, hid⟩
          · exact ih _ acc bank h1 h2 h
          · cases res with
            | none =>
                refine ih (i :: seen) acc bank h1 (fun p hp => ?_) h
                obtain ⟨j, hj, hjid⟩ := h2 p hp
                exact ⟨j, List.mem_cons_of_mem _ hj, hjid⟩
            | some nq =>
                have hnqid : nq.id = formatId i := hid nq rfl
                refine ih (i :: seen) (acc ++ [nq]) bank ?_ ?_ h
                · rw [List.map_append, List.map_singleton]
                  refine List.Nodup.append h1 (List.nodup_singleton _) ?_
                  intro s hs hs'
                  rw [List.mem_singleton] at hs'
                  subst hs'
                  rcases List.mem_map.mp hs with ⟨p, hp, hpid⟩
                  obtain ⟨j, hj, hjid⟩ := h2 p hp
                  rw [hnqid] at hpid
                  rw [hjid] at hpid
                  exact hiseen (formatId_inj hpid ▸ hj)
                · intro p hp
                  rcases List.mem_append.mp hp with hp | hp
                  · obtain ⟨j, hj, hjid⟩ := h2 p hp
                    exact ⟨j, List.mem_cons_of_mem _ hj, hjid⟩
                  · rw [List.mem_singleton] at hp
                    subst hp
                    exact ⟨i, List.mem_cons_self _ _, hnqid⟩

/-- C6: for every input, a successfully returned bank contains no two
questions with the same formatted ID — duplicate integer ids are skipped
during the load and the `Q%04d` formatting is injective. -/
theorem load_questions_ids_nodup (data : List RawRecord) (bank : List Question)
    (h : load_questions data = .ok bank) : (bank.map Question.id).Nodup := by
  unfold load_questions at h
  split at h
  · cases h; exact List.nodup_nil
  · exact loadGo_ok_nodup data [] [] bank (by simp) (by simp) h

/-- C2: in fresh mode (`avoid_seen`, not wrong-only), whenever the requested
count is at least the number of unattempted questions, any possible result of
`pick_questions` is exactly the set of questions whose IDs are absent from
the attempt history, with the count clamped to the pool size. -/
theorem pick_fresh_exhaustive (all_questions : List Question)
    (attempts : List (String × Row)) (n : ℕ) (res : List Question)
    (hn : (pickPool all_questions attempts true false).length ≤ n)
    (h : PickRel all_questions attempts n true false res) :
    (∀ q, q ∈ res ↔ q ∈ all_questions ∧ q.id ∉ seenIds attempts) ∧
      res.length = (pickPool all_questions attempts true false).length := by
  simp only [PickRel] at h
  by_cases hp : (pickPool all_questions attempts true false).isEmpty
  · rw [if_pos hp] at h
    subst h
    rw [List.isEmpty_iff] at hp
    constructor
    · intro q
      simp only [List.not_mem_nil, false_iff]
      intro ⟨hq, hid⟩
      have : q ∈ pickPool all_questions attempts true false := by
        simp [pickPool, List.mem_filter, hq, hid]
      rw [hp] at this
      exact List.not_mem_nil q this
    · rw [hp]
  · rw [if_neg hp] at h
    obtain ⟨hlen, hsub⟩ := h
    have hmin : min n (pickPool all_questions attempts true false).length
        = (pickPool all_questions attempts true false).length := min_eq_right hn
    rw [hmin] at hlen
    have hperm : res.Perm (pickPool all_questions attempts true false) :=
      hsub.perm_of_length_le (le_of_eq hlen.symm)
    refine ⟨fun q => ?_, hlen⟩
    rw [hperm.mem_iff]
    simp [pickPool, List.mem_filter]

/-- C8: when no attempt in the history has `is_correct = 0`, the wrong-only
pool is empty and every possible result of `pick_questions` in wrong-only
mode is the empty list. -/
theorem pick_wrong_only_of_no_wrong (all_questions : List Question)
    (attempts : List (String × Row)) (n : ℕ) (avoid_seen : Bool) (res : List Question)
    (hno : ∀ e ∈ attempts, e.2.is_correct ≠ 0)
    (h : PickRel all_questions attempts n avoid_seen true res) : res = [] := by
  have hw : wrongIds attempts = [] := by
    unfold wrongIds
    rw [List.filter_eq_nil_iff.mpr (fun e he => by simpa using hno e he)]
    rfl
  have hpool : pickPool all_questions attempts avoid_seen true = [] := by
    unfold pickPool
    rw [if_pos rfl]
    exact List.filter_eq_nil_iff.mpr (fun q _ => by simp [hw])
  simp only [PickRel, hpool] at h
  simpa using h

/-- C10: with `use_wrong_only` set, the `avoid_seen` flag is ignored — the
selection relation is the same for any two values of it — and every selected
question's ID has an attempt recorded with `is_correct = 0` (so unseen
questions are never eligible in this mode). -/
theorem pick_wrong_only_precedence (all_questions : List Question)
    (attempts : List (String × Row)) (n : ℕ) (a b : Bool) (res : List Question) :
    (PickRel all_questions attempts n a true res ↔ PickRel all_questions attempts n b true res) ∧
      (PickRel all_questions attempts n a true res → ∀ q ∈ res, q.id ∈ wrongIds attempts) := by
  constructor
  · exact Iff.rfl
  · intro h q hq
    simp only [PickRel] at h
    by_cases hp : (pickPool all_questions attempts a true).isEmpty
    · rw [if_pos hp] at h
      subst h
      exact absurd hq (List.not_mem_nil q)
    · rw [if_neg hp] at h
      have hmem : q ∈ pickPool all_questions attempts a true := h.2.subset hq
      simp only [pickPool, if_pos, List.mem_filter] at hmem
      simpa using hmem.2

/-- A small concrete question for witness instances. -/
def wq (ids : String) : Question :=
  { id := ids, question := "q", choices := ["A", "B"], answer := "A", explanation := "" }

/-- A concrete attempt row marking a question answered correctly. -/
def seenRow : Row := { is_correct := 1, last_answer := some "A", correct_answer := some "A" }

/-- A concrete attempt row marking a question answered wrongly. -/
def wrongRow : Row := { is_correct := 0, last_answer := some "B", correct_answer := some "A" }

def c2bank : List Question :=
  [wq "Q0001", wq "Q0002", wq "Q0003", wq "Q0004", wq "Q0005",
   wq "Q0006", wq "Q0007", wq "Q0008", wq "Q0009", wq "Q0010"]

def c2attempts : List (String × Row) :=
  [("Q0001", seenRow), ("Q0002", seenRow), ("Q0003", seenRow),
   ("Q0004", seenRow), ("Q0005", seenRow), ("Q0006", seenRow)]

def c2res : List Question := [wq "Q0007", wq "Q0008", wq "Q0009", wq "Q0010"]

/-- Witness for C2: a bank of 10 questions with 6 attempted; requesting 10 in
fresh mode yields exactly the 4 unattempted questions. -/
theorem pick_fresh_exhaustive_witness :
    (pickPool c2bank c2attempts true false).length ≤ 10 ∧
    PickRel c2bank c2attempts 10 true false c2res ∧
    ((∀ q, q ∈ c2res ↔ q ∈ c2bank ∧ q.id ∉ seenIds c2attempts) ∧
      c2res.length = (pickPool c2bank c2attempts true false).length) := by
  have h1 : (pickPool c2bank c2attempts true false).length ≤ 10 := by decide
  have h2 : PickRel c2bank c2attempts 10 true false c2res :=
    ⟨by decide, List.Subperm.refl _⟩
  exact ⟨h1, h2, pick_fresh_exhaustive c2bank c2attempts 10 c2res h1 h2⟩

def c8bank : List Question := [wq "Q0001", wq "Q0002"]

def c8attempts : List (String × Row) := [("Q0001", seenRow)]

/-- Witness for C8: with every recorded attempt correct, wrong-only picking
returns the empty list. -/
theorem pick_wrong_only_of_no_wrong_witness :
    (∀ e ∈ c8attempts, e.2.is_correct ≠ 0) ∧
    PickRel c8bank c8attempts 5 true true [] ∧ ([] : List Question) = [] := by
  have h1 : ∀ e ∈ c8attempts, e.2.is_correct ≠ 0 := by decide
  have h2 : PickRel c8bank c8attempts 5 true true [] := rfl
  exact ⟨h1, h2, pick_wrong_only_of_no_wrong c8bank c8attempts 5 true [] h1 h2⟩

def c10bank : List Question := [wq "Q0001", wq "Q0002"]

def c10attempts : List (String × Row) := [("Q0001", wrongRow)]

def c10res : List Question := [wq "Q0001"]

/-- Witness for C10: with one wrongly-answered question on record, wrong-only
picking is insensitive to `avoid_seen` and returns only that (seen, wrong)
question. -/
theorem pick_wrong_only_precedence_witness :
    (PickRel c10bank c10attempts 1 true true c10res ↔
      PickRel c10bank c10attempts 1 false true c10res) ∧
    (∀ q ∈ c10res, q.id ∈ wrongIds c10attempts) := by
  have hPR : PickRel c10bank c10attempts 1 true true c10res :=
    ⟨by decide, List.Subperm.refl _⟩
  exact ⟨(pick_wrong_only_precedence c10bank c10attempts 1 true false c10res).1,
         fun q hq => (pick_wrong_only_precedence c10bank c10attempts 1 true false c10res).2 hPR q hq⟩

def c6data : List RawRecord :=
  [ { id := some (.jint 1), question := some (.jstr "  What is 1+1? "),
      options := some (.jlist [.jstr "2", .jstr "3"]), answer := some (.jint 0),
      explanation := none },
    { id := some (.jint 1), question := some (.jstr "dup"),
      options := some (.jlist [.jstr "a", .jstr "b"]), answer := some (.jint 1),
      explanation := none },
    { id := some (.jint 2), question := some (.jstr "second"),
      options := some (.jlist [.jstr "x", .jstr "y"]), answer := some (.jint 1),
      explanation := some (.jstr "because") } ]

def c6bank : List Question :=
  [ { id := "Q0001", question := "What is 1+1?", choices := ["2", "3"],
      answer := "2", explanation := "" },
    { id := "Q0002", question := "second", choices := ["x", "y"],
      answer := "y", explanation := "because" } ]

/-- Witness for C6: an input with two records sharing id 1 loads successfully
into a bank keeping only the first, with pairwise-distinct formatted IDs. -/
theorem load_questions_ids_nodup_witness :
    load_questions c6data = .ok c6bank ∧ (c6bank.map Question.id).Nodup := by
  have h : load_questions c6data = .ok c6bank := rfl
  exact ⟨h, load_questions_ids_nodup c6data c6bank h⟩

theorem foldl_gradeStep_results (answers : String → Option String) (picked : List Question) :
    ∀ st : GradeOut,
    (picked.foldl (gradeStep answers) st).results
      = st.results ++ picked.map (fun q =>
          { qid := q.id, is_correct := decide (answers q.id = some q.answer),
            user_ans := answers q.id, correct_ans := q.answer }) := by
  induction picked with
  | nil => intro st; simp
  | cons q rest ih =>
      intro st
      rw [List.foldl_cons, ih]
      simp [gradeStep]

theorem foldl_gradeStep_score (answers : String → Option String) (picked : List Question) :
    ∀ st : GradeOut,
    (picked.foldl (gradeStep answers) st).score
      = st.score + (picked.filter (fun q => answers q.id = some q.answer)).length := by
  induction picked with
  | nil => intro st; simp
  | cons q rest ih =>
      intro st
      rw [List.foldl_cons, ih]
      by_cases hc : answers q.id = some q.answer
      · simp [gradeStep, hc, List.filter_cons]
        omega
      · simp [gradeStep, hc, List.filter_cons]

theorem foldl_gradeStep_wrong (answers : String → Option String) (picked : List Question) :
    ∀ st : GradeOut,
    (picked.foldl (gradeStep answers) st).wrong
      = st.wrong ++ (picked.filter (fun q => ¬(answers q.id = some q.answer))).map
          (fun q => { q := q, user_ans := answers q.id }) := by
  induction picked with
  | nil => intro st; simp
  | cons q rest ih =>
      intro st
      rw [List.foldl_cons, ih]
      by_cases hc : answers q.id = some q.answer
      · simp [gradeStep, hc, List.filter_cons]
      · simp [gradeStep, hc, List.filter_cons]

/-- C7: grading marks each picked question correct exactly when the recorded
answer equals the question's correct answer as strings (an absent answer is
never correct), and the wrong list is precisely the incorrect picks, in pick
order, as (question, user answer) pairs — each entry carrying the whole
question and hence its explanation. -/
theorem grade_round_spec (picked : List Question) (answers : String → Option String) :
    (gradeRound picked answers).results
        = picked.map (fun q =>
            { qid := q.id, is_correct := decide (answers q.id = some q.answer),
              user_ans := answers q.id, correct_ans := q.answer }) ∧
    (gradeRound picked answers).wrong
        = (picked.filter (fun q => ¬(answers q.id = some q.answer))).map
            (fun q => { q := q, user_ans := answers q.id }) ∧
    (∀ q ∈ picked, answers q.id = none →
        ({ q := q, user_ans := none } : WrongItem) ∈ (gradeRound picked answers).wrong) := by
  refine ⟨by rw [gradeRound, foldl_gradeStep_results]; simp,
          by rw [gradeRound, foldl_gradeStep_wrong]; simp, ?_⟩
  intro q hq hnone
  rw [gradeRound, foldl_gradeStep_wrong]
  simp only [List.nil_append]
  refine List.mem_map.mpr ⟨q, ?_, by rw [hnone]⟩
  rw [List.mem_filter]
  exact ⟨hq, by simp [hnone]⟩

def c7picked : List Question := [wq "Q0001", wq "Q0002"]

/-- Session answers for the C7 witness: the first question answered
correctly, the second left unanswered. -/
def c7answers : String → Option String :=
  fun s => if s = "Q0001" then some "A" else none

/-- Witness for C7: with one answered and one unanswered pick, grading marks
them per string equality and the unanswered question lands in the wrong list
with an absent answer. -/
theorem grade_round_spec_witness :
    wq "Q0002" ∈ c7picked ∧ c7answers (wq "Q0002").id = none ∧
    ({ q := wq "Q0002", user_ans := none } : WrongItem) ∈ (gradeRound c7picked c7answers).wrong := by
  have hmem : wq "Q0002" ∈ c7picked := by decide
  exact ⟨hmem, rfl, (grade_round_spec c7picked c7answers).2.2 (wq "Q0002") hmem rfl⟩

def c1picked : List Question := [wq "Q0001", wq "Q0002", wq "Q0003"]

/-- Session answers for the C1 counterexample: first question right, the
other two wrong. -/
def c1answers : String → Option String :=
  fun s => if s = "Q0001" then some "A" else some "B"

/-- Counterexample for C1: with 1 correct answer out of 3 picks the submit
handler reports `int(1 / 3 * 100) = 33`, not the percentage rounded to one
decimal place, which is 33.3. -/
theorem final_score_not_one_decimal :
    (gradeRound c1picked c1answers).score = 1 ∧ c1picked.length = 3 ∧
    (final_score c1picked c1answers : ℚ)
      ≠ specRound1 (((gradeRound c1picked c1answers).score : ℚ) / (c1picked.length : ℚ) * 100) := by
  have hs : (gradeRound c1picked c1answers).score = 1 := rfl
  have hl : c1picked.length = 3 := rfl
  have hf : final_score c1picked c1answers = 33 := by
    unfold final_score
    rw [hs, hl]
    norm_num
  have hr : specRound1 (((gradeRound c1picked c1answers).score : ℚ) / (c1picked.length : ℚ) * 100)
      = 333 / 10 := by
    rw [hs, hl]
    unfold specRound1
    norm_num [round_eq]
  refine ⟨hs, hl, ?_⟩
  rw [hf, hr]
  norm_num

/-- C1 (amended): on a nonempty graded round the reported score is the
integer truncation of the percentage — `⌊100 · correct / total⌋` — not a
one-decimal rounding. -/
theorem final_score_truncates (picked : List Question) (answers : String → Option String)
    (h : 0 < picked.length) :
    final_score picked answers
      = ((100 * (picked.filter (fun q => answers q.id = some q.answer)).length) / picked.length : ℕ) := by
  unfold final_score
  rw [gradeRound, foldl_gradeStep_score]
  set s := (picked.filter (fun q => answers q.id = some q.answer)).length with hs
  set t := picked.length with ht
  have hcast : ((({ results := [], score := 0, wrong := [] } : GradeOut).score + s : ℕ) : ℚ) / (t : ℚ) * 100
      = (((100 * s : ℕ) : ℤ) : ℚ) / ((t : ℕ) : ℚ) := by
    push_cast; ring
  rw [hcast, Rat.floor_intCast_div_natCast]
  norm_cast

/-- Witness for C1 (amended): the concrete 1-of-3 round scores
`(100 * 1) / 3 = 33`. -/
theorem final_score_truncates_witness :
    0 < c1picked.length ∧
    final_score c1picked c1answers
      = ((100 * (c1picked.filter (fun q => c1answers q.id = some q.answer)).length) / c1picked.length : ℕ) :=
  ⟨by decide, final_score_truncates c1picked c1answers (by decide)⟩

theorem load_attempts_eq (db : Db) : load_attempts db = db := by
  simp [load_attempts]

theorem contains_keys_iff (db : Db) (q : String) :
    (List.map Prod.fst db).contains q = true ↔ q ∈ db.map Prod.fst :=
  List.elem_iff

theorem map_replace_of_not_mem {t : Db} {q : String} (r : Row)
    (hm : q ∉ t.map Prod.fst) :
    t.map (fun e => if e.1 = q then (q, r) else e) = t := by
  have : ∀ e ∈ t, (fun e => if e.1 = q then (q, r) else e) e = id e := by
    intro e he
    have : e.1 ≠ q := fun hc => hm (hc ▸ List.mem_map_of_mem Prod.fst he)
    simp [this]
  rw [List.map_congr_left this, List.map_id]

theorem filter_key_nil {t : Db} {q : String} (hm : q ∉ t.map Prod.fst) :
    t.filter (fun e => e.1 = q) = [] := by
  refine List.filter_eq_nil_iff.mpr (fun e he => ?_)
  have : e.1 ≠ q := fun hc => hm (hc ▸ List.mem_map_of_mem Prod.fst he)
  simp [this]

theorem upsertRow_keys_of_mem {db : Db} {q : String} (r : Row)
    (h : q ∈ db.map Prod.fst) :
    (upsertRow db q r).map Prod.fst = db.map Prod.fst := by
  unfold upsertRow
  rw [if_pos ((contains_keys_iff db q).mpr h), List.map_map]
  refine List.map_congr_left (fun e _ => ?_)
  by_cases h1 : e.1 = q <;> simp [h1]

theorem upsertRow_keys_of_not_mem {db : Db} {q : String} (r : Row)
    (h : q ∉ db.map Prod.fst) :
    (upsertRow db q r).map Prod.fst = db.map Prod.fst ++ [q] := by
  unfold upsertRow
  rw [if_neg (fun hc => h ((contains_keys_iff db q).mp hc))]
  simp

theorem upsertRow_keys_nodup {db : Db} {q : String} {r : Row}
    (h : (db.map Prod.fst).Nodup) :
    ((upsertRow db q r).map Prod.fst).Nodup := by
  by_cases hm : q ∈ db.map Prod.fst
  · rw [upsertRow_keys_of_mem r hm]; exact h
  · rw [upsertRow_keys_of_not_mem r hm]
    simp [List.nodup_append, h, hm]

theorem lookup_map_replace (t : Db) (q : String) (r : Row)
    (hm : q ∈ t.map Prod.fst) :
    List.lookup q (t.map (fun e => if e.1 = q then (q, r) else e)) = some r := by
  induction t with
  | nil => simp at hm
  | cons e t ih =>
      by_cases h1 : e.1 = q
      · simp only [List.map_cons, if_pos h1]
        simp [List.lookup]
      · have hm' : q ∈ t.map Prod.fst := by
          rcases List.mem_map.mp hm with ⟨p, hp, hpe⟩
          rcases List.mem_cons.mp hp with rfl | hp'
          · exact absurd hpe h1
          · exact hpe ▸ List.mem_map_of_mem Prod.fst hp'
        have hne : (q == e.1) = false := beq_eq_false_iff_ne.mpr (Ne.symm h1)
        simp only [List.map_cons, if_neg h1]
        simp [List.lookup, hne, ih hm']

theorem lookup_append_singleton (t : Db) (q : String) (r : Row)
    (hm : q ∉ t.map Prod.fst) :
    List.lookup q (t ++ [(q, r)]) = some r := by
  induction t with
  | nil => simp [List.lookup]
  | cons e t ih =>
      have h1 : e.1 ≠ q := fun hc => hm (hc ▸ List.mem_map_of_mem Prod.fst (List.mem_cons_self e t))
      have hne : (q == e.1) = false := beq_eq_false_iff_ne.mpr (Ne.symm h1)
      have hm' : q ∉ t.map Prod.fst := fun hc => hm (List.mem_cons_of_mem _ hc)
      simp [List.lookup, hne, ih hm']

theorem lookup_upsertRow (db : Db) (q : String) (r : Row) :
    List.lookup q (upsertRow db q r) = some r := by
  unfold upsertRow
  by_cases hm : q ∈ db.map Prod.fst
  · rw [if_pos ((contains_keys_iff db q).mpr hm)]
    exact lookup_map_replace db q r hm
  · rw [if_neg (fun hc => hm ((contains_keys_iff db q).mp hc))]
    exact lookup_append_singleton db q r hm

theorem filter_key_upsertRow {db : Db} {q : String} {r : Row}
    (h : (db.map Prod.fst).Nodup) :
    (upsertRow db q r).filter (fun e => e.1 = q) = [(q, r)] := by
  unfold upsertRow
  by_cases hm : q ∈ db.map Prod.fst
  · rw [if_pos ((contains_keys_iff db q).mpr hm)]
    induction db with
    | nil => simp at hm
    | cons e t ih =>
        have hkey : e.1 ∉ t.map Prod.fst ∧ (t.map Prod.fst).Nodup := by
          simpa using h
        by_cases h1 : e.1 = q
        · have hq : q ∉ t.map Prod.fst := h1 ▸ hkey.1
          simp [h1, map_replace_of_not_mem r hq, List.filter_cons, filter_key_nil hq]
        · have hm' : q ∈ t.map Prod.fst := by
            rcases List.mem_map.mp hm with ⟨p, hp, hpe⟩
            rcases List.mem_cons.mp hp with rfl | hp'
            · exact absurd hpe h1
            · exact hpe ▸ List.mem_map_of_mem Prod.fst hp'
          simp only [List.map_cons, List.filter_cons, if_neg h1]
          rw [ih hkey.2 hm']
          simp [h1]
  · rw [if_neg (fun hc => hm ((contains_keys_iff db q).mp hc))]
    rw [List.filter_append, filter_key_nil hm]
    simp

/-- C5: upserting the same question ID twice (two submissions across two
rounds) leaves exactly one row for it, holding the later submission's
`is_correct`, `last_answer` and `correct_answer`, and keeps the keys of the
table pairwise distinct. -/
theorem save_twice_single_slot (db : Db) (r1 r2 : ResultRec)
    (hnd : (db.map Prod.fst).Nodup) (hq : r1.qid = r2.qid) :
    ((load_attempts (save_attempts_batch (save_attempts_batch db [r1]) [r2])).filter
        (fun e => e.1 = r2.qid)).length = 1 ∧
    List.lookup r2.qid (load_attempts (save_attempts_batch (save_attempts_batch db [r1]) [r2]))
      = some { is_correct := if r2.is_correct then 1 else 0,
               last_answer := r2.user_ans, correct_answer := some r2.correct_ans } ∧
    ((load_attempts (save_attempts_batch (save_attempts_batch db [r1]) [r2])).map Prod.fst).Nodup := by
  have hb : ∀ (d : Db) (r : ResultRec), save_attempts_batch d [r]
      = upsertRow d r.qid { is_correct := if r.is_correct then 1 else 0,
                            last_answer := r.user_ans, correct_answer := some r.correct_ans } :=
    fun d r => rfl
  rw [load_attempts_eq, hb, hb]
  have h1 : ((upsertRow db r1.qid
      { is_correct := if r1.is_correct then 1 else 0,
        last_answer := r1.user_ans, correct_answer := some r1.correct_ans }).map Prod.fst).Nodup :=
    upsertRow_keys_nodup hnd
  refine ⟨?_, lookup_upsertRow _ _ _, upsertRow_keys_nodup h1⟩
  rw [filter_key_upsertRow h1]
  rfl

/-- C9: after `reset_progress`, `load_attempts` is the empty mapping: no row
survives and every lookup misses, whatever the prior contents were. -/
theorem reset_then_load_empty (db : Db) :
    load_attempts (reset_progress db) = [] ∧
    ∀ qid, List.lookup qid (load_attempts (reset_progress db)) = none :=
  ⟨rfl, fun _ => rfl⟩

def c5r1 : ResultRec :=
  { qid := "Q0001", is_correct := false, user_ans := some "B", correct_ans := "A" }

def c5r2 : ResultRec :=
  { qid := "Q0001", is_correct := true, user_ans := some "A", correct_ans := "A" }

/-- Witness for C5: submitting Q0001 wrongly and then correctly leaves one
row holding the correct (latest) submission. -/
theorem save_twice_single_slot_witness :
    (([] : Db).map Prod.fst).Nodup ∧ c5r1.qid = c5r2.qid ∧
    (((load_attempts (save_attempts_batch (save_attempts_batch [] [c5r1]) [c5r2])).filter
        (fun e => e.1 = c5r2.qid)).length = 1 ∧
      List.lookup c5r2.qid (load_attempts (save_attempts_batch (save_attempts_batch [] [c5r1]) [c5r2]))
        = some { is_correct := if c5r2.is_correct then 1 else 0,
                 last_answer := c5r2.user_ans, correct_answer := some c5r2.correct_ans } ∧
      ((load_attempts (save_attempts_batch (save_attempts_batch ([] : Db) [c5r1]) [c5r2])).map
          Prod.fst).Nodup) :=
  ⟨List.nodup_nil, rfl, save_twice_single_slot [] c5r1 c5r2 List.nodup_nil rfl⟩

def c3good : RawRecord :=
  { id := some (.jint 1), question := some (.jstr "ok"),
    options := some (.jlist [.jstr "A", .jstr "B"]), answer := some (.jint 0),
    explanation := none }

def c3bad : RawRecord :=
  { id := some (.jstr "abc"), question := some (.jstr "bad id"),
    options := some (.jlist [.jstr "A", .jstr "B"]), answer := some (.jint 0),
    explanation := none }

/-- Counterexample for C3: an input whose second record has the
non-integer-convertible id `"abc"` makes the whole load raise `ValueError`
instead of skipping the record and returning the valid first one. -/
theorem load_bad_id_raises :
    load_questions [c3good, c3bad] = .error "ValueError: invalid literal for int" := rfl

/-- C3 (amended): the lenient policy is not uniform. A record missing a
required field is skipped (with a warning); a duplicate id, a too-short
`options` list, and an out-of-range integer answer index are skipped
silently (the latter two after the id has claimed its slot in `seen_ids`),
and a record passing every check is kept; but a record whose id is present
and not convertible to an integer aborts the entire load with a
`ValueError`. -/
theorem load_lenient_skips_but_id_error :
    (∀ (seen : List ℤ) (acc : List Question) (q : RawRecord) (rest : List RawRecord),
        ¬(q.id.isSome ∧ q.question.isSome ∧ q.options.isSome ∧ q.answer.isSome) →
        loadGo seen acc (q :: rest) = loadGo seen acc rest) ∧
    (∀ (seen : List ℤ) (acc : List Question) (q : RawRecord) (rest : List RawRecord) (idv : JValue),
        q.id = some idv → q.question.isSome → q.options.isSome → q.answer.isSome →
        pyIntOf idv = none →
        loadGo seen acc (q :: rest) = .error "ValueError: invalid literal for int") ∧
    (∀ (seen : List ℤ) (acc : List Question) (q : RawRecord) (rest : List RawRecord)
        (idv : JValue) (i : ℤ),
        q.id = some idv → q.question.isSome → q.options.isSome → q.answer.isSome →
        pyIntOf idv = some i → i ∈ seen →
        loadGo seen acc (q :: rest) = loadGo seen acc rest) ∧
    (∀ (seen : List ℤ) (acc : List Question) (q : RawRecord) (rest : List RawRecord)
        (idv : JValue) (i : ℤ) (opts : List JValue),
        q.id = some idv → q.question.isSome → q.options = some (.jlist opts) →
        q.answer.isSome → pyIntOf idv = some i → i ∉ seen → opts.length < 2 →
        loadGo seen acc (q :: rest) = loadGo (i :: seen) acc rest) ∧
    (∀ (seen : List ℤ) (acc : List Question) (q : RawRecord) (rest : List RawRecord)
        (idv : JValue) (i : ℤ) (opts : List JValue) (ansIdx : ℤ),
        q.id = some idv → q.question.isSome → q.options = some (.jlist opts) →
        q.answer = some (.jint ansIdx) → pyIntOf idv = some i → i ∉ seen →
        ¬(opts.length < 2) → ¬(0 ≤ ansIdx ∧ ansIdx < (opts.length : ℤ)) →
        loadGo seen acc (q :: rest) = loadGo (i :: seen) acc rest) ∧
    (∀ (seen : List ℤ) (acc : List Question) (rest : List RawRecord)
        (idv : JValue) (i : ℤ) (qs : String) (opts : List JValue) (ansIdx : ℤ),
        pyIntOf idv = some i → i ∉ seen → ¬(opts.length < 2) →
        0 ≤ ansIdx ∧ ansIdx < (opts.length : ℤ) →
        loadGo seen acc
          ({ id := some idv, question := some (.jstr qs), options := some (.jlist opts),
             answer := some (.jint ansIdx), explanation := none } :: rest)
          = loadGo (i :: seen)
              (acc ++ [{ id := formatId i, question := pyStrip qs,
                         choices := opts.map (fun x => pyStrip (pyStr x)),
                         answer := pyStrip (pyStr (opts.getD ansIdx.toNat (.jstr ""))),
                         explanation := "" }]) rest) := by
  refine ⟨?_, ?_, ?_, ?_, ?_, ?_⟩
  · intro seen acc q rest h
    rcases q with ⟨qi, qq, qo, qa, qe⟩
    cases qi <;> cases qq <;> cases qo <;> cases qa <;> simp_all [loadGo, loadStep]
  · intro seen acc q rest idv h1 h2 h3 h4 hpy
    rcases q with ⟨qi, qq, qo, qa, qe⟩
    cases h1
    cases qq with
    | none => simp at h2
    | some qv =>
        cases qo with
        | none => simp at h3
        | some ov =>
            cases qa with
            | none => simp at h4
            | some av => simp [loadGo, loadStep, hpy]
  · intro seen acc q rest idv i h1 h2 h3 h4 hpy hmem
    rcases q with ⟨qi, qq, qo, qa, qe⟩
    cases h1
    cases qq with
    | none => simp at h2
    | some qv =>
        cases qo with
        | none => simp at h3
        | some ov =>
            cases qa with
            | none => simp at h4
            | some av => simp [loadGo, loadStep, hpy, hmem]
  · intro seen acc q rest idv i opts h1 h2 h3 h4 hpy hmem hlen
    rcases q with ⟨qi, qq, qo, qa, qe⟩
    cases h1
    cases h3
    cases qq with
    | none => simp at h2
    | some qv =>
        cases qa with
        | none => simp at h4
        | some av => simp [loadGo, loadStep, hpy, hmem, hlen]
  · intro seen acc q rest idv i opts ansIdx h1 h2 h3 h4 hpy hmem hlen hidx
    rcases q with ⟨qi, qq, qo, qa, qe⟩
    cases h1
    cases h3
    cases h4
    cases qq with
    | none => simp at h2
    | some qv => simp [loadGo, loadStep, hpy, hmem, hlen, hidx]
  · intro seen acc rest idv i qs opts ansIdx hpy hmem hlen hidx
    simp [loadGo, loadStep, hpy, hmem, hlen, hidx]

/-- Witness for C3 (amended): the record with id `"abc"` makes `loadGo`
return the `ValueError`, through the amended theorem's error clause. -/
theorem load_lenient_skips_but_id_error_witness :
    c3bad.id = some (.jstr "abc") ∧ pyIntOf (.jstr "abc") = none ∧
    loadGo [] [] [c3bad] = .error "ValueError: invalid literal for int" :=
  ⟨rfl, rfl,
    load_lenient_skips_but_id_error.2.1 [] [] c3bad [] (.jstr "abc") rfl rfl rfl rfl rfl⟩

def c4data : List RawRecord :=
  [ { id := some (.jint 7), question := some (.jstr "   "),
      options := some (.jlist [.jstr "A", .jstr "B"]), answer := some (.jint 1),
      explanation := none } ]

def c4q : Question :=
  { id := "Q0007", question := "", choices := ["A", "B"], answer := "B",
    explanation := "" }

/-- Counterexample for C4: a record whose question text is whitespace-only
is not excluded — the load returns a bank whose sole question has the empty
trimmed prompt. -/
theorem load_keeps_blank_prompt :
    load_questions c4data = .ok [c4q] ∧ c4q.question = "" := ⟨rfl, rfl⟩

/-- C4 (amended): the load applies no non-emptiness check to the prompt.
For every question string, a record passing the implemented checks is kept
with its trimmed text — which may be empty. -/
theorem load_no_prompt_check (s : String) :
    load_questions [{ id := some (.jint 1), question := some (.jstr s),
                      options := some (.jlist [.jstr "A", .jstr "B"]),
                      answer := some (.jint 0), explanation := none }]
      = .ok [{ id := "Q0001", question := pyStrip s, choices := ["A", "B"],
               answer := "A", explanation := "" }] := rfl
